import Mathlib

/-!
Verification of the PokerClientV1 repository (Go) against its
natural-language specification, via a shallow embedding in Lean 4.

The embedding follows the Go sources:
  * `internal/types/game_types.go` — cards, suits, ranks;
  * `internal/game/deck.go`        — deck construction and dealing;
  * `internal/game/game.go`        — blinds, the betting-round loop,
    showdown and pot awarding;
  * `internal/player` (HumanPlayer / BotPlayer) — the player-side call
    amount computation and `RemoveChips` semantics.

Go `int` values (chips, bets, pot) are modelled as `Int`; no quantity in
any property approaches machine-word overflow, so no wrap-around is
modelled.  Mutation is modelled by explicit state passing; the unbounded
`for` loops of `runBettingRound` are modelled with a fuel parameter, with
`none` meaning the fuel ran out (so a `some` result is a genuinely
terminated loop).
-/

namespace Poker

/-- A playing card, as in `types.Card`: suit `0..3` (Spade, Heart,
Diamond, Club) and rank `2..14` (Two .. Ace), both Go `int`s. -/
structure Card where
  suit : Nat
  rank : Nat
deriving DecidableEq, Repr

/-! ### Deck (`internal/game/deck.go`)

The Go deck is a slice `cards []types.Card`; we model it as a `List Card`
in the same order (index 0 = bottom, last element = "top", since `Deal`
takes from the end of the slice). -/

/-- `NewDeck` from `deck.go`: for each suit `Spade..Club` (0..3) and each
rank `Two..Ace` (2..14), append the card. -/
def newDeck : List Card :=
  (List.range 4).flatMap fun s => (List.range 13).map fun r => Card.mk s (r + 2)

/-- `Deck.Deal`: on an empty deck return an error and leave the deck
unchanged; otherwise remove and return the last card of the slice.  The
second component is the deck after the call (Go mutates the receiver). -/
def deal (d : List Card) : Except String Card × List Card :=
  match d.getLast? with
  | none => (.error "no cards left in deck", d)
  | some c => (.ok c, d.dropLast)

/-- The inner loop of `Deck.DealMultiple`: deal `n` single cards,
collecting them in order; an inner error aborts with the deck as it
stands (unreachable after the length guard). -/
def dealLoop : Nat → List Card → Except String (List Card) × List Card
  | 0, d => (.ok [], d)
  | n + 1, d =>
    match deal d with
    | (.error e, d') => (.error e, d')
    | (.ok c, d') =>
      match dealLoop n d' with
      | (.error e, d'') => (.error e, d'')
      | (.ok cs, d'') => (.ok (c :: cs), d'')

/-- `Deck.DealMultiple`: if fewer than `numCards` remain, return an error
before touching the deck; otherwise deal one card at a time. -/
def dealMultiple (numCards : Nat) (d : List Card) :
    Except String (List Card) × List Card :=
  if d.length < numCards then (.error "not enough cards left in deck", d)
  else dealLoop numCards d

lemma dealLoop_deck (n : Nat) (d : List Card) (hn : n ≤ d.length) :
    dealLoop n d = (.ok ((d.drop (d.length - n)).reverse), d.take (d.length - n)) := by
  induction n generalizing d with
  | zero => simp [dealLoop]
  | succ m ih =>
    have hd : d ≠ [] := by
      intro h; subst h; simp at hn
    obtain ⟨c, hc⟩ : ∃ c, d.getLast? = some c := by
      cases h : d.getLast? with
      | none => exact absurd (List.getLast?_eq_none_iff.mp h) hd
      | some c => exact ⟨c, rfl⟩
    have hlen : d.dropLast.length = d.length - 1 := by
      simp [List.length_dropLast]
    have hm : m ≤ d.dropLast.length := by omega
    have hsucc : 1 ≤ d.length := by
      cases d with
      | nil => exact absurd rfl hd
      | cons a l => simp
    simp only [dealLoop, deal, hc, ih d.dropLast hm]
    have hdecomp : d = d.dropLast ++ [c] := by
      conv_lhs => rw [← List.dropLast_append_getLast hd]
      rw [List.getLast?_eq_getLast d hd] at hc
      simp [Option.some_inj.mp hc]
    rw [Prod.mk.injEq]
    have h1 : d.length - (m + 1) = d.dropLast.length - m := by omega
    constructor
    · -- dealt cards: c :: reverse of the dropped suffix of d.dropLast
      rw [h1]
      have h2 : d.drop (d.dropLast.length - m) =
          d.dropLast.drop (d.dropLast.length - m) ++ [c] := by
        conv_lhs => rw [hdecomp]
        simp only [List.dropLast_concat]
        rw [List.drop_append_of_le_length (by omega)]
      rw [h2]
      simp
    · -- remaining deck
      rw [h1]
      conv_rhs => rw [hdecomp]
      simp only [List.dropLast_concat]
      rw [List.take_append_of_le_length (by omega)]

/-- **C8.** `Deal` and `DealMultiple` are atomic on error: dealing from an
empty deck, and `DealMultiple n` with `n` greater than the number of
remaining cards, return an error with the deck's card sequence unchanged;
on success `Deal` removes exactly the last card and `DealMultiple n`
removes exactly the last `n` cards (returned in top-first order). -/
theorem deal_atomic (d : List Card) (n : Nat) :
    (d = [] → deal d = (.error "no cards left in deck", d)) ∧
    (d.length < n → dealMultiple n d = (.error "not enough cards left in deck", d)) ∧
    (d ≠ [] → ∃ c, d.getLast? = some c ∧ deal d = (.ok c, d.dropLast)) ∧
    (n ≤ d.length →
      dealMultiple n d = (.ok ((d.drop (d.length - n)).reverse), d.take (d.length - n))) := by
  refine ⟨?_, ?_, ?_, ?_⟩
  · intro h; subst h; rfl
  · intro h; simp [dealMultiple, h]
  · intro h
    obtain ⟨c, hc⟩ : ∃ c, d.getLast? = some c := by
      cases hl : d.getLast? with
      | none => exact absurd (List.getLast?_eq_none_iff.mp hl) h
      | some c => exact ⟨c, rfl⟩
    exact ⟨c, hc, by simp [deal, hc]⟩
  · intro h
    rw [dealMultiple, if_neg (by omega)]
    exact dealLoop_deck n d h

/-- Concrete instantiation of `deal_atomic`: the empty deck and a
two-card deck, exercising every hypothesis. -/
theorem deal_atomic_witness :
    deal [] = (.error "no cards left in deck", ([] : List Card)) ∧
    dealMultiple 3 [Card.mk 0 2, Card.mk 0 3] =
      (.error "not enough cards left in deck", [Card.mk 0 2, Card.mk 0 3]) ∧
    deal [Card.mk 0 2, Card.mk 0 3] = (.ok (Card.mk 0 3), [Card.mk 0 2]) ∧
    dealMultiple 2 [Card.mk 0 2, Card.mk 0 3] =
      (.ok [Card.mk 0 3, Card.mk 0 2], []) := by
  have h1 := (deal_atomic ([] : List Card) 0).1 rfl
  have h2 := (deal_atomic [Card.mk 0 2, Card.mk 0 3] 3).2.1 (by decide)
  have h3 := (deal_atomic [Card.mk 0 2, Card.mk 0 3] 0).2.2.1 (by decide)
  have h4 := (deal_atomic [Card.mk 0 2, Card.mk 0 3] 2).2.2.2 (by decide)
  refine ⟨h1, h2, ?_, by simpa using h4⟩
  obtain ⟨c, hc, hd⟩ := h3
  have : c = Card.mk 0 3 := by
    have := hc.symm.trans (by decide : ([Card.mk 0 2, Card.mk 0 3].getLast? = some (Card.mk 0 3)))
    exact Option.some_inj.mp this.symm ▸ rfl
  simpa [this] using hd

/-- **C9.** `NewDeck` returns exactly 52 pairwise-distinct cards covering
every combination of the 4 suits with the 13 ranks 2..14. -/
theorem newDeck_complete :
    newDeck.length = 52 ∧ newDeck.Nodup ∧
    ∀ s ∈ List.range 4, ∀ r ∈ List.range 13, Card.mk s (r + 2) ∈ newDeck := by
  refine ⟨by decide, by decide, by decide⟩

/-- Concrete instantiation of `newDeck_complete`: the 7♦ is in the
deck. -/
theorem newDeck_complete_witness : Card.mk 2 (5 + 2) ∈ newDeck :=
  newDeck_complete.2.2 2 (by decide) 5 (by decide)

/-! ### Players and the betting round (`internal/game/game.go`)

`runBettingRound` drives dynamically dispatched `types.Player` values.
Every implementation in the repository (`HumanPlayer`, `BotPlayer`, the
test `MockPlayer`) holds `Chips`, `Folded` and `CurrentBet` fields with
identical getter/setter behaviour, and `TakeTurn` returns one of the
action strings `"fold"`, `"check"`, `"call"`, `"raise"` together with an
amount to add to the pot.  We model a player as those fields plus a
script of pending `TakeTurn` answers (exactly the shape of the test
suite's `MockPlayer` with its `ActionQueue`/`TurnCount`); `turns` mirrors
`MockPlayer.TurnCount` and counts `TakeTurn` invocations. -/

/-- A `TakeTurn` answer: the action string together with the `amount`
return value (only `"call"` and `"raise"` consult the amount). -/
inductive PAction where
  | fold
  | check
  | call (amount : Int)
  | raise (amount : Int)
deriving DecidableEq, Repr

/-- One `types.Player`, with its scripted `TakeTurn` answers. -/
structure PlayerSt where
  chips : Int
  folded : Bool
  currentBet : Int
  script : List PAction
  turns : Nat
deriving DecidableEq, Repr

/-- Placeholder for out-of-range list accesses: a folded, broke player
(never acts, never contributes). -/
def dummyPlayer : PlayerSt := ⟨0, true, 0, [], 0⟩

/-- Total list indexing, standing in for Go's `g.Players[i]`. -/
def getP (l : List PlayerSt) (i : Nat) : PlayerSt :=
  l.getD i dummyPlayer

/-- `TakeTurn`: pop the next scripted answer (an exhausted script answers
`"fold"`, as the test `MockPlayer` does) and count the invocation. -/
def takeTurn (p : PlayerSt) : PAction × PlayerSt :=
  match p.script with
  | [] => (.fold, { p with turns := p.turns + 1 })
  | a :: rest => (a, { p with script := rest, turns := p.turns + 1 })

/-- `RemoveChips` as implemented by `HumanPlayer`: removing more than the
player holds is an error and removes nothing.  (`BotPlayer` instead
zeroes the stack in that case; the game only ever calls `RemoveChips`
with `amount ≤ chips`, where the two agree and remove exactly
`amount`.)  `game.go` ignores the returned error. -/
def removeChips (chips amount : Int) : Int :=
  if amount > chips then chips else chips - amount

/-- Shared table/game state read and written by the betting round:
`Game.Players`, `Game.Pot`, `Table.CurrentBet`, `Table.Round`. -/
structure BettingState where
  players : List PlayerSt
  pot : Int
  currentBet : Int
  round : String
deriving DecidableEq, Repr

/-- `getPlayersInHand` — the number of non-folded players. -/
def inHandCount (s : BettingState) : Nat :=
  (s.players.filter (fun p => !p.folded)).length

/-- Sum of all players' chip stacks. -/
def sumChips (l : List PlayerSt) : Int :=
  (l.map (·.chips)).sum

/-- `SmallBlind` constant from `game.go`. -/
def smallBlindAmt : Int := 1

/-- `BigBlind` constant from `game.go`. -/
def bigBlindAmt : Int := 2

/-- `MinRaise` constant from `game.go` (`= BigBlind`). -/
def minRaiseAmt : Int := 2

/-- The local variables of one `runBettingRound` execution, alongside the
shared state: `lastRaiser` (Go `int`, `-1` for "none"), `playersActed`,
`numToAct`, `currentPlayerIndex` and `actTarget` (assigned by the Go
code but never influencing control flow; carried for fidelity). -/
structure LoopSt where
  st : BettingState
  lastRaiser : Int
  playersActed : Nat
  numToAct : Nat
  idx : Nat
  actTarget : Nat
deriving DecidableEq, Repr

/-- Advance to the next seat after an action: `playersActed++` and
`currentPlayerIndex = (currentPlayerIndex + 1) % numPlayers`. -/
def bump (L : LoopSt) : LoopSt :=
  { L with playersActed := L.playersActed + 1,
           idx := (L.idx + 1) % L.st.players.length }

/-- The `"fold"` case of the action switch. -/
def applyFold (L : LoopSt) (p1 : PlayerSt) : LoopSt :=
  bump { L with st :=
    { L.st with players := L.st.players.set L.idx { p1 with folded := true } } }

/-- The `"check"` case: an illegal check (table bet above the player's
round bet) is converted to a fold; otherwise no state change. -/
def applyCheck (L : LoopSt) (p1 : PlayerSt) : LoopSt :=
  if L.st.currentBet > p1.currentBet then
    bump { L with st :=
      { L.st with players := L.st.players.set L.idx { p1 with folded := true } } }
  else
    bump { L with st :=
      { L.st with players := L.st.players.set L.idx p1 } }

/-- Cap a requested amount at the player's stack ("All-in call/raise"). -/
def capAt (chips amount : Int) : Int :=
  if amount > chips then chips else amount

/-- The amount actually moved by the `"call"` case: the submitted amount
capped at the stack, then — when it mismatches the true call amount and
the player can afford that amount — corrected to
`Table.CurrentBet - player.CurrentBet`. -/
def callBet (cb : Int) (p1 : PlayerSt) (amount : Int) : Int :=
  let bet0 := capAt p1.chips amount
  let callNeeded := cb - p1.currentBet
  if bet0 ≠ callNeeded ∧ p1.chips ≥ callNeeded then callNeeded else bet0

/-- The `"call"` case: remove the (possibly corrected) call amount from
the player and add it to the pot. -/
def applyCall (L : LoopSt) (p1 : PlayerSt) (amount : Int) : LoopSt :=
  let bet := callBet L.st.currentBet p1 amount
  let p2 := { p1 with chips := removeChips p1.chips bet,
                      currentBet := p1.currentBet + bet }
  bump { L with st :=
    { L.st with players := L.st.players.set L.idx p2, pot := L.st.pot + bet } }

/-- The call amount used when a "raise" whose total does not exceed the
table bet is downgraded to a call: the true call amount clamped to
`[0, chips]`. -/
def raiseCallBet (cb : Int) (p1 : PlayerSt) : Int :=
  let cn0 := cb - p1.currentBet
  let cn1 := if cn0 < 0 then 0 else cn0
  if cn1 > p1.chips then p1.chips else cn1

/-- The `"raise"` case: cap the added amount at the player's stack; a
total not exceeding `Table.CurrentBet` is converted to a call; a raise
increment below `MinRaise` by a player who is not going all-in is
converted to a fold; otherwise the raise is accepted — the table bet
becomes the player's total, `lastRaiser` is set, `playersActed` is reset
to zero and `numToAct`/`actTarget` are refreshed. -/
def applyRaise (L : LoopSt) (p1 : PlayerSt) (amount : Int) : LoopSt :=
  let bet0 := capAt p1.chips amount
  let total := p1.currentBet + bet0
  if total ≤ L.st.currentBet then
    -- "Treating as call."
    let cn := raiseCallBet L.st.currentBet p1
    let p2 := { p1 with chips := removeChips p1.chips cn,
                        currentBet := p1.currentBet + cn }
    bump { L with st :=
      { L.st with players := L.st.players.set L.idx p2, pot := L.st.pot + cn } }
  else if total - L.st.currentBet < minRaiseAmt ∧ p1.chips > bet0 then
    -- "folds (invalid raise size)"
    bump { L with st :=
      { L.st with players := L.st.players.set L.idx { p1 with folded := true } } }
  else
    let p2 := { p1 with chips := removeChips p1.chips bet0, currentBet := total }
    let st2 := { L.st with players := L.st.players.set L.idx p2,
                           pot := L.st.pot + bet0, currentBet := total }
    bump { st := st2, lastRaiser := Int.ofNat L.idx, playersActed := 0,
           numToAct := inHandCount st2, idx := L.idx, actTarget := L.idx }

/-- One accepted decision point: call `TakeTurn` on the player at
`currentPlayerIndex` and run the action switch of `runBettingRound`.
(`(takeTurn _).2` is the acting player with its script advanced; every
branch of the switch persists that advance, as the Go code's pointer
mutation does.) -/
def doAction (L : LoopSt) : LoopSt :=
  match (takeTurn (getP L.st.players L.idx)).1 with
  | .fold => applyFold L ((takeTurn (getP L.st.players L.idx)).2)
  | .check => applyCheck L ((takeTurn (getP L.st.players L.idx)).2)
  | .call a => applyCall L ((takeTurn (getP L.st.players L.idx)).2) a
  | .raise a => applyRaise L ((takeTurn (getP L.st.players L.idx)).2) a

/-- The `for playersActed < numToAct` loop of `runBettingRound`, with a
fuel bound; `none` means the fuel ran out.  On a terminated loop the
result is the final shared state together with the returned boolean
`len(getPlayersInHand()) > 1` (the early `return false` when at most one
player remains, included). -/
def roundLoop : Nat → LoopSt → Option (BettingState × Bool)
  | 0, _ => none
  | fuel + 1, L =>
    if L.numToAct ≤ L.playersActed then
      some (L.st, decide (1 < inHandCount L.st))
    else if inHandCount L.st ≤ 1 then
      some (L.st, false)
    else if (getP L.st.players L.idx).folded = true ∨
            (getP L.st.players L.idx).chips = 0 then
      roundLoop fuel { L with idx := (L.idx + 1) % L.st.players.length }
    else if L.lastRaiser = Int.ofNat L.idx then
      some (L.st, decide (1 < inHandCount L.st))
    else
      roundLoop fuel (doAction L)

/-- The initial scan for the first player to act (skipping folded and
broke seats), fuelled like the loop it comes from. -/
def findStart : Nat → List PlayerSt → Nat → Option Nat
  | 0, _, _ => none
  | fuel + 1, ps, i =>
    if (getP ps i).folded = true ∨ (getP ps i).chips = 0 then
      findStart fuel ps ((i + 1) % ps.length)
    else some i

/-- `runBettingRound(startPos)`: set up `lastRaiser = -1`,
`playersActed = 0`, `numToAct = len(getPlayersInHand())`, scan for the
first player to act, compute `actTarget` (the big blind pre-flop) and
run the loop. -/
def runBettingRound (fuel : Nat) (bigBlindPos startPos : Nat)
    (s : BettingState) : Option (BettingState × Bool) :=
  match findStart fuel s.players startPos with
  | none => none
  | some i =>
    let n := s.players.length
    let tgt := if s.round = "Pre-flop" then bigBlindPos else (startPos + n - 1) % n
    roundLoop fuel ⟨s, -1, 0, inHandCount s, i, tgt⟩

/-- `forceBet`: bet `amount`, capped at the player's stack (all-in blind);
returns the updated player and the amount actually posted. -/
def forceBet (amount : Int) (p : PlayerSt) : PlayerSt × Int :=
  let bet := if p.chips < amount then p.chips else amount
  ({ p with chips := removeChips p.chips bet, currentBet := bet }, bet)

/-- `postBlinds`: force the small and big blind bets and set
`Table.CurrentBet = BigBlind`. -/
def postBlinds (sbPos bbPos : Nat) (s : BettingState) : BettingState :=
  let (p1, a1) := forceBet smallBlindAmt (getP s.players sbPos)
  let ps1 := s.players.set sbPos p1
  let (p2, a2) := forceBet bigBlindAmt (getP ps1 bbPos)
  { s with players := ps1.set bbPos p2, pot := s.pot + a1 + a2,
           currentBet := bigBlindAmt }

/-- The betting-state part of `dealCommunityCards`: label the new round,
reset `Table.CurrentBet` to 0 and every player's round bet to 0. -/
def resetForRound (name : String) (s : BettingState) : BettingState :=
  { s with round := name, currentBet := 0,
           players := s.players.map (fun p => { p with currentBet := 0 }) }

/-- The post-flop part of `playHand`'s chip-moving skeleton: for each of
the named streets in turn, reset the round bets (the betting part of
`dealCommunityCards`) and run a betting round starting at the small
blind; stop when a round reports at most one player remaining. -/
def postflopRounds (fuel bbPos sbPos : Nat) :
    List String → BettingState → Option BettingState
  | [], s => some s
  | name :: rest, s =>
    match runBettingRound fuel bbPos sbPos (resetForRound name s) with
    | none => none
    | some (s', false) => some s'
    | some (s', true) => postflopRounds fuel bbPos sbPos rest s'

/-- The chip-moving skeleton of `playHand`: post the blinds, run the
pre-flop betting round (first to act after the big blind), then the
flop/turn/river rounds, each only if its predecessor reported more than
one player remaining. -/
def handBetting (fuel sbPos bbPos : Nat) (s0 : BettingState) :
    Option BettingState :=
  let s1 := { postBlinds sbPos bbPos s0 with round := "Pre-flop" }
  match runBettingRound fuel bbPos ((bbPos + 1) % s0.players.length) s1 with
  | none => none
  | some (s2, false) => some s2
  | some (s2, true) => postflopRounds fuel bbPos sbPos ["Flop", "Turn", "River"] s2

/-- `awardPot`: the winner receives the whole pot, which is reset to 0. -/
def awardPot (winner : Nat) (s : BettingState) : BettingState :=
  let p := getP s.players winner
  { s with players := s.players.set winner { p with chips := p.chips + s.pot },
           pot := 0 }

/-- `awardPotUncontested`: when exactly one player remains in the hand,
that player receives the pot; otherwise (the error branch) nothing
happens. -/
def awardPotUncontested (s : BettingState) : BettingState :=
  if inHandCount s = 1 then
    { s with
      players :=
        s.players.map fun p =>
          if p.folded then p else { p with chips := p.chips + s.pot },
      pot := 0 }
  else s

/-- `showdown` as the source implements it: with no players a no-op,
with one player uncontested, otherwise the *first* remaining player is
declared the winner ("Winner (Placeholder)") and receives the whole pot
via `awardPot`. -/
def showdownGo (s : BettingState) : BettingState :=
  if inHandCount s = 0 then s
  else if inHandCount s = 1 then awardPotUncontested s
  else
    match s.players.findIdx? (fun p => !p.folded) with
    | some w => awardPot w s
    | none => s

/-! ### Basic lemmas about the embedding -/

lemma getP_of_length_le (l : List PlayerSt) (i : Nat) (h : l.length ≤ i) :
    getP l i = dummyPlayer := by
  simp [getP, List.getD, List.getElem?_eq_none h]

lemma getP_set_self (l : List PlayerSt) (i : Nat) (p : PlayerSt)
    (h : i < l.length) : getP (l.set i p) i = p := by
  simp [getP, List.getD, List.getElem?_set_self, h]

lemma sumChips_set (l : List PlayerSt) (i : Nat) (p : PlayerSt)
    (h : i < l.length) :
    sumChips (l.set i p) = sumChips l - (getP l i).chips + p.chips := by
  induction l generalizing i with
  | nil => simp at h
  | cons a t ih =>
    cases i with
    | zero => simp [sumChips, getP]; ring
    | succ j =>
      have hj : j < t.length := by simpa using h
      have := ih j hj
      simp only [List.set, sumChips, List.map_cons, List.sum_cons, getP,
        List.getD_cons_succ] at this ⊢
      omega

lemma takeTurn_chips (p : PlayerSt) :
    ((takeTurn p).2).chips = p.chips ∧ ((takeTurn p).2).currentBet = p.currentBet ∧
    ((takeTurn p).2).folded = p.folded := by
  cases h : p.script <;> simp [takeTurn, h]

lemma callBet_le_chips (cb : Int) (p1 : PlayerSt) (a : Int) :
    callBet cb p1 a ≤ p1.chips := by
  simp only [callBet, capAt]
  split_ifs with h1 h2 h2 <;> omega

lemma raiseCallBet_le_chips (cb : Int) (p1 : PlayerSt) :
    raiseCallBet cb p1 ≤ p1.chips := by
  simp only [raiseCallBet]
  split_ifs <;> omega

lemma removeChips_of_le (chips amount : Int) (h : amount ≤ chips) :
    removeChips chips amount = chips - amount := by
  simp [removeChips, not_lt.mpr h]

/-! Length preservation. -/

lemma bump_st (L : LoopSt) : (bump L).st = L.st := rfl

lemma doAction_length (L : LoopSt) :
    (doAction L).st.players.length = L.st.players.length := by
  cases h : (takeTurn (getP L.st.players L.idx)).1 with
  | fold => unfold doAction; simp [h, applyFold, bump]
  | check =>
    unfold doAction; simp only [h]
    unfold applyCheck; split_ifs <;> simp [bump]
  | call a => unfold doAction; simp [h, applyCall, bump]
  | raise a =>
    unfold doAction; simp only [h]
    unfold applyRaise; dsimp only; split_ifs <;> simp [bump]

lemma roundLoop_length (fuel : Nat) (L : LoopSt) (s : BettingState) (c : Bool)
    (h : roundLoop fuel L = some (s, c)) :
    s.players.length = L.st.players.length := by
  induction fuel generalizing L with
  | zero => simp [roundLoop] at h
  | succ m ih =>
    unfold roundLoop at h
    split_ifs at h with h1 h2 h3 h4
    · simp only [Option.some.injEq, Prod.mk.injEq] at h
      rw [← h.1]
    · simp only [Option.some.injEq, Prod.mk.injEq] at h
      rw [← h.1]
    · exact ih { L with idx := (L.idx + 1) % L.st.players.length } h
    · simp only [Option.some.injEq, Prod.mk.injEq] at h
      rw [← h.1]
    · exact (ih _ h).trans (doAction_length L)

/-! Chip conservation: every accepted action moves exactly the same
amount out of the acting player's stack and into the pot. -/

lemma applyFold_conserve (L : LoopSt) (p1 : PlayerSt)
    (hidx : L.idx < L.st.players.length)
    (hch : p1.chips = (getP L.st.players L.idx).chips) :
    sumChips (applyFold L p1).st.players + (applyFold L p1).st.pot =
      sumChips L.st.players + L.st.pot := by
  simp only [applyFold, bump, sumChips_set _ _ _ hidx]
  omega

lemma applyCheck_conserve (L : LoopSt) (p1 : PlayerSt)
    (hidx : L.idx < L.st.players.length)
    (hch : p1.chips = (getP L.st.players L.idx).chips) :
    sumChips (applyCheck L p1).st.players + (applyCheck L p1).st.pot =
      sumChips L.st.players + L.st.pot := by
  unfold applyCheck
  split_ifs <;> simp only [bump, sumChips_set _ _ _ hidx] <;> omega

lemma capAt_le (chips a : Int) : capAt chips a ≤ chips := by
  simp only [capAt]; split_ifs <;> omega

lemma applyCall_conserve (L : LoopSt) (p1 : PlayerSt) (a : Int)
    (hidx : L.idx < L.st.players.length)
    (hch : p1.chips = (getP L.st.players L.idx).chips) :
    sumChips (applyCall L p1 a).st.players + (applyCall L p1 a).st.pot =
      sumChips L.st.players + L.st.pot := by
  have hle := callBet_le_chips L.st.currentBet p1 a
  simp only [applyCall, bump, sumChips_set _ _ _ hidx,
    removeChips_of_le _ _ hle]
  omega

lemma applyRaise_conserve (L : LoopSt) (p1 : PlayerSt) (a : Int)
    (hidx : L.idx < L.st.players.length)
    (hch : p1.chips = (getP L.st.players L.idx).chips) :
    sumChips (applyRaise L p1 a).st.players + (applyRaise L p1 a).st.pot =
      sumChips L.st.players + L.st.pot := by
  have hle1 := raiseCallBet_le_chips L.st.currentBet p1
  have hle0 := capAt_le p1.chips a
  unfold applyRaise
  dsimp only
  split_ifs <;>
    simp only [bump, sumChips_set _ _ _ hidx,
      removeChips_of_le _ _ hle1, removeChips_of_le _ _ hle0] <;>
    omega

lemma doAction_conserve (L : LoopSt) (hidx : L.idx < L.st.players.length) :
    sumChips (doAction L).st.players + (doAction L).st.pot =
      sumChips L.st.players + L.st.pot := by
  have hch : ((takeTurn (getP L.st.players L.idx)).2).chips =
      (getP L.st.players L.idx).chips := (takeTurn_chips _).1
  cases hA : (takeTurn (getP L.st.players L.idx)).1 with
  | fold =>
    unfold doAction; simp only [hA]
    exact applyFold_conserve L _ hidx hch
  | check =>
    unfold doAction; simp only [hA]
    exact applyCheck_conserve L _ hidx hch
  | call a =>
    unfold doAction; simp only [hA]
    exact applyCall_conserve L _ a hidx hch
  | raise a =>
    unfold doAction; simp only [hA]
    exact applyRaise_conserve L _ a hidx hch

/-- Inside the loop, an acting (non-folded) player is a real seat: the
out-of-range placeholder is folded. -/
lemma idx_lt_of_not_folded (L : LoopSt)
    (h : ¬((getP L.st.players L.idx).folded = true ∨
           (getP L.st.players L.idx).chips = 0)) :
    L.idx < L.st.players.length := by
  by_contra hlt
  rw [getP_of_length_le _ _ (le_of_not_lt hlt)] at h
  simp [dummyPlayer] at h

lemma roundLoop_conserve (fuel : Nat) (L : LoopSt) (s : BettingState)
    (c : Bool) (h : roundLoop fuel L = some (s, c)) :
    sumChips s.players + s.pot = sumChips L.st.players + L.st.pot := by
  induction fuel generalizing L with
  | zero => simp [roundLoop] at h
  | succ m ih =>
    unfold roundLoop at h
    split_ifs at h with h1 h2 h3 h4
    · simp only [Option.some.injEq, Prod.mk.injEq] at h
      rw [← h.1]
    · simp only [Option.some.injEq, Prod.mk.injEq] at h
      rw [← h.1]
    · exact ih { L with idx := (L.idx + 1) % L.st.players.length } h
    · simp only [Option.some.injEq, Prod.mk.injEq] at h
      rw [← h.1]
    · exact (ih _ h).trans (doAction_conserve L (idx_lt_of_not_folded L h3))

/-! `Table.CurrentBet` monotonicity. -/

lemma applyRaise_currentBet (L : LoopSt) (p1 : PlayerSt) (a : Int)
    (hidx : L.idx < L.st.players.length) :
    (applyRaise L p1 a).st.currentBet = L.st.currentBet ∨
      (L.st.currentBet < (applyRaise L p1 a).st.currentBet ∧
       (applyRaise L p1 a).st.currentBet =
         (getP (applyRaise L p1 a).st.players L.idx).currentBet) := by
  unfold applyRaise
  dsimp only
  split_ifs with h1 h2
  · left; simp [bump]
  · left; simp [bump]
  · right
    constructor
    · simp only [bump]; omega
    · simp only [bump]
      rw [getP_set_self _ _ _ (by simpa using hidx)]

lemma doAction_currentBet (L : LoopSt) :
    (doAction L).st.currentBet = L.st.currentBet ∨
      (L.st.currentBet < (doAction L).st.currentBet ∧
       (doAction L).st.currentBet =
         (getP (doAction L).st.players L.idx).currentBet) := by
  by_cases hidx : L.idx < L.st.players.length
  · cases hA : (takeTurn (getP L.st.players L.idx)).1 with
    | fold =>
      unfold doAction; simp only [hA]
      left; simp [applyFold, bump]
    | check =>
      unfold doAction; simp only [hA]
      left; unfold applyCheck; split_ifs <;> simp [bump]
    | call a =>
      unfold doAction; simp only [hA]
      left; simp [applyCall, bump]
    | raise a =>
      unfold doAction; simp only [hA]
      exact applyRaise_currentBet L _ a hidx
  · -- out-of-range seat: the placeholder's empty script answers "fold"
    unfold doAction
    rw [getP_of_length_le _ _ (le_of_not_lt hidx)]
    left; simp [takeTurn, dummyPlayer, applyFold, bump]

lemma doAction_currentBet_le (L : LoopSt) :
    L.st.currentBet ≤ (doAction L).st.currentBet := by
  rcases doAction_currentBet L with h | ⟨h, _⟩
  · omega
  · omega

lemma roundLoop_mono (fuel : Nat) (L : LoopSt) (s : BettingState) (c : Bool)
    (h : roundLoop fuel L = some (s, c)) :
    L.st.currentBet ≤ s.currentBet := by
  induction fuel generalizing L with
  | zero => simp [roundLoop] at h
  | succ m ih =>
    unfold roundLoop at h
    split_ifs at h with h1 h2 h3 h4
    · simp only [Option.some.injEq, Prod.mk.injEq] at h
      rw [← h.1]
    · simp only [Option.some.injEq, Prod.mk.injEq] at h
      rw [← h.1]
    · exact ih { L with idx := (L.idx + 1) % L.st.players.length } h
    · simp only [Option.some.injEq, Prod.mk.injEq] at h
      rw [← h.1]
    · exact le_trans (doAction_currentBet_le L) (ih _ h)

/-! Bookkeeping around the rounds: blinds, round resets, awards. -/

lemma forceBet_chips (amt : Int) (p : PlayerSt) :
    ((forceBet amt p).1).chips = p.chips - (forceBet amt p).2 := by
  unfold forceBet removeChips
  dsimp only
  split_ifs <;> omega

lemma postBlinds_length (sbPos bbPos : Nat) (s : BettingState) :
    (postBlinds sbPos bbPos s).players.length = s.players.length := by
  simp [postBlinds]

lemma postBlinds_conserve (sbPos bbPos : Nat) (s : BettingState)
    (hsb : sbPos < s.players.length) (hbb : bbPos < s.players.length) :
    sumChips (postBlinds sbPos bbPos s).players + (postBlinds sbPos bbPos s).pot =
      sumChips s.players + s.pot := by
  unfold postBlinds
  dsimp only
  rw [sumChips_set _ _ _ (by simpa using hbb), sumChips_set _ _ _ hsb]
  have h1 := forceBet_chips smallBlindAmt (getP s.players sbPos)
  have h2 := forceBet_chips bigBlindAmt
    (getP (s.players.set sbPos (forceBet smallBlindAmt (getP s.players sbPos)).1) bbPos)
  omega

lemma sumChips_reset (l : List PlayerSt) :
    sumChips (l.map fun p => { p with currentBet := 0 }) = sumChips l := by
  induction l with
  | nil => rfl
  | cons a t ih => simp [sumChips] at ih ⊢; omega

lemma resetForRound_facts (name : String) (s : BettingState) :
    sumChips (resetForRound name s).players = sumChips s.players ∧
      (resetForRound name s).pot = s.pot ∧
      (resetForRound name s).players.length = s.players.length := by
  refine ⟨sumChips_reset s.players, rfl, by simp [resetForRound]⟩

lemma runBettingRound_conserve (fuel bbPos startPos : Nat) (s s2 : BettingState)
    (c : Bool) (h : runBettingRound fuel bbPos startPos s = some (s2, c)) :
    sumChips s2.players + s2.pot = sumChips s.players + s.pot := by
  unfold runBettingRound at h
  split at h
  · exact absurd h (by simp)
  · exact roundLoop_conserve _ _ _ _ h

lemma runBettingRound_length (fuel bbPos startPos : Nat) (s s2 : BettingState)
    (c : Bool) (h : runBettingRound fuel bbPos startPos s = some (s2, c)) :
    s2.players.length = s.players.length := by
  unfold runBettingRound at h
  split at h
  · exact absurd h (by simp)
  · exact roundLoop_length _ _ _ _ h

lemma runBettingRound_mono (fuel bbPos startPos : Nat) (s s2 : BettingState)
    (c : Bool) (h : runBettingRound fuel bbPos startPos s = some (s2, c)) :
    s.currentBet ≤ s2.currentBet := by
  unfold runBettingRound at h
  split at h
  · exact absurd h (by simp)
  · exact roundLoop_mono _ _ _ _ h

lemma postflopRounds_facts (fuel bbPos sbPos : Nat) (names : List String)
    (s s2 : BettingState)
    (h : postflopRounds fuel bbPos sbPos names s = some s2) :
    sumChips s2.players + s2.pot = sumChips s.players + s.pot ∧
      s2.players.length = s.players.length := by
  induction names generalizing s with
  | nil =>
    simp only [postflopRounds, Option.some.injEq] at h
    rw [h]
    exact ⟨rfl, rfl⟩
  | cons name rest ih =>
    unfold postflopRounds at h
    obtain ⟨hsum, hpot, hlen⟩ := resetForRound_facts name s
    split at h
    · exact absurd h (by simp)
    · rename_i s' heq
      obtain rfl := Option.some_inj.mp h
      have hc := runBettingRound_conserve _ _ _ _ _ _ heq
      have hl := runBettingRound_length _ _ _ _ _ _ heq
      rw [hsum, hpot] at hc
      rw [hlen] at hl
      exact ⟨hc, hl⟩
    · rename_i s' heq
      have hc := runBettingRound_conserve _ _ _ _ _ _ heq
      have hl := runBettingRound_length _ _ _ _ _ _ heq
      rw [hsum, hpot] at hc
      rw [hlen] at hl
      obtain ⟨ihc, ihl⟩ := ih s' h
      exact ⟨ihc.trans hc, ihl.trans hl⟩

lemma handBetting_facts (fuel sbPos bbPos : Nat) (s0 s2 : BettingState)
    (hsb : sbPos < s0.players.length) (hbb : bbPos < s0.players.length)
    (h : handBetting fuel sbPos bbPos s0 = some s2) :
    sumChips s2.players + s2.pot = sumChips s0.players + s0.pot ∧
      s2.players.length = s0.players.length := by
  unfold handBetting at h
  dsimp only at h
  have hc0 : sumChips ({ postBlinds sbPos bbPos s0 with round := "Pre-flop" }).players +
      ({ postBlinds sbPos bbPos s0 with round := "Pre-flop" }).pot =
      sumChips s0.players + s0.pot := postBlinds_conserve sbPos bbPos s0 hsb hbb
  have hl0 : ({ postBlinds sbPos bbPos s0 with round := "Pre-flop" }).players.length =
      s0.players.length := postBlinds_length sbPos bbPos s0
  split at h
  · exact absurd h (by simp)
  · rename_i s' heq
    obtain rfl := Option.some_inj.mp h
    have hc := runBettingRound_conserve _ _ _ _ _ _ heq
    have hl := runBettingRound_length _ _ _ _ _ _ heq
    exact ⟨hc.trans hc0, hl.trans hl0⟩
  · rename_i s' heq
    have hc := runBettingRound_conserve _ _ _ _ _ _ heq
    have hl := runBettingRound_length _ _ _ _ _ _ heq
    obtain ⟨ihc, ihl⟩ := postflopRounds_facts _ _ _ _ _ _ h
    exact ⟨(ihc.trans hc).trans hc0, (ihl.trans hl).trans hl0⟩

/-- `awardPot` moves exactly the pot onto the winner's stack. -/
lemma awardPot_sum (w : Nat) (s : BettingState) (hw : w < s.players.length) :
    sumChips (awardPot w s).players = sumChips s.players + s.pot ∧
      (awardPot w s).pot = 0 := by
  refine ⟨?_, rfl⟩
  unfold awardPot
  dsimp only
  rw [sumChips_set _ _ _ hw]
  dsimp only
  omega

lemma sumChips_award_map (l : List PlayerSt) (pot : Int) :
    sumChips (l.map fun p =>
        if p.folded then p else { p with chips := p.chips + pot }) =
      sumChips l + ((l.filter (fun p => !p.folded)).length : Int) * pot := by
  induction l with
  | nil => simp [sumChips]
  | cons a t ih =>
    cases hf : a.folded <;>
      simp [List.filter_cons, hf, sumChips] at ih ⊢ <;>
      rw [ih] <;>
      ring

lemma awardPotUncontested_sum (s : BettingState) (h1 : inHandCount s = 1) :
    sumChips (awardPotUncontested s).players = sumChips s.players + s.pot ∧
      (awardPotUncontested s).pot = 0 := by
  unfold awardPotUncontested
  rw [if_pos h1]
  dsimp only
  rw [sumChips_award_map]
  unfold inHandCount at h1
  rw [h1]
  exact ⟨by ring, rfl⟩

/-- **C1.** Chip conservation over a hand: starting from an empty pot,
after the blinds and the betting rounds the pot holds exactly the chips
that left the players' stacks, and distributing it — via `awardPot` at
showdown or via `awardPotUncontested` when one player remains — restores
the total chip count to its pre-hand value, with the pot emptied; no
chip is created or lost. -/
theorem chip_conservation (s0 : BettingState) (sbPos bbPos w fuel : Nat)
    (s2 : BettingState)
    (hsb : sbPos < s0.players.length) (hbb : bbPos < s0.players.length)
    (hw : w < s0.players.length) (hpot : s0.pot = 0)
    (hrun : handBetting fuel sbPos bbPos s0 = some s2) :
    s2.pot = sumChips s0.players - sumChips s2.players ∧
    sumChips (awardPot w s2).players = sumChips s0.players ∧
    (awardPot w s2).pot = 0 ∧
    (inHandCount s2 = 1 →
      sumChips (awardPotUncontested s2).players = sumChips s0.players ∧
      (awardPotUncontested s2).pot = 0) := by
  obtain ⟨hc, hl⟩ := handBetting_facts fuel sbPos bbPos s0 s2 hsb hbb hrun
  rw [hpot] at hc
  obtain ⟨ha1, ha2⟩ := awardPot_sum w s2 (hl ▸ hw)
  refine ⟨by omega, by omega, ha2, fun hone => ?_⟩
  obtain ⟨hb1, hb2⟩ := awardPotUncontested_sum s2 hone
  exact ⟨by omega, hb2⟩

/-- Heads-up hand for the conservation witness: the small blind completes
pre-flop and both players check every street. -/
def ccInit : BettingState :=
  ⟨[⟨10, false, 0, [.call 1, .check, .check, .check], 0⟩,
    ⟨10, false, 0, [.check, .check, .check, .check], 0⟩], 0, 0, ""⟩

/-- The state `handBetting` reaches on `ccInit`. -/
def ccFinal : BettingState := (handBetting 32 0 1 ccInit).getD ccInit

/-- Concrete instantiation of `chip_conservation` on a completed heads-up
hand. -/
theorem chip_conservation_witness :
    ccFinal.pot = sumChips ccInit.players - sumChips ccFinal.players ∧
    sumChips (awardPot 0 ccFinal).players = sumChips ccInit.players ∧
    (awardPot 0 ccFinal).pot = 0 := by
  have h := chip_conservation ccInit 0 1 0 32 ccFinal (by decide) (by decide)
    (by decide) rfl (by decide)
  exact ⟨h.1, h.2.1, h.2.2.1⟩

/-- **C10.** Within a single `runBettingRound` execution,
`Table.CurrentBet` is monotonically non-decreasing: every decision point
either leaves it unchanged (fold, check, call, downgraded or rejected
raise) or — exactly when a raise is accepted — sets it to the raiser's
new total round bet, strictly greater than its previous value; hence
over any terminated round the final value is at least the initial one. -/
theorem currentBet_monotone :
    (∀ L : LoopSt,
      (doAction L).st.currentBet = L.st.currentBet ∨
        (L.st.currentBet < (doAction L).st.currentBet ∧
         (doAction L).st.currentBet =
           (getP (doAction L).st.players L.idx).currentBet)) ∧
    (∀ (fuel bbPos startPos : Nat) (s s2 : BettingState) (c : Bool),
      runBettingRound fuel bbPos startPos s = some (s2, c) →
      s.currentBet ≤ s2.currentBet) :=
  ⟨doAction_currentBet, fun fuel bbPos startPos s s2 c h =>
    runBettingRound_mono fuel bbPos startPos s s2 c h⟩

/-- Round state for the monotonicity witness: one seat about to act. -/
def cbL : LoopSt := ⟨⟨[⟨10, false, 0, [.raise 4], 0⟩], 0, 0, "Flop"⟩, -1, 0, 1, 0, 0⟩

/-- Two-seat round for the monotonicity witness: both players check. -/
def cbS : BettingState :=
  ⟨[⟨10, false, 0, [.check], 0⟩, ⟨10, false, 0, [.check], 0⟩], 0, 0, "Flop"⟩

/-- The state the witness round terminates in. -/
def cbS2 : BettingState := ((runBettingRound 32 1 0 cbS).getD (cbS, false)).1

/-- Concrete instantiation of `currentBet_monotone`. -/
theorem currentBet_monotone_witness :
    ((doAction cbL).st.currentBet = cbL.st.currentBet ∨
      (cbL.st.currentBet < (doAction cbL).st.currentBet ∧
       (doAction cbL).st.currentBet =
         (getP (doAction cbL).st.players cbL.idx).currentBet)) ∧
    cbS.currentBet ≤ cbS2.currentBet :=
  ⟨currentBet_monotone.1 cbL,
   currentBet_monotone.2 32 1 0 cbS cbS2 true (by decide)⟩

/-! ### C4/C5: concrete betting-round traces -/

/-- Three-player flop-street round: A opens with a raise to 4; B, holding
5 chips, goes all-in for 5 — a raise increment of 1, below
`MinRaise = 2`; C folds.  (A's second scripted answer is the call the
code then demands of A.) -/
def c4State : BettingState :=
  ⟨[⟨100, false, 0, [.raise 4, .call 1], 0⟩,
    ⟨5, false, 0, [.raise 5], 0⟩,
    ⟨100, false, 0, [.fold], 0⟩], 0, 0, "Flop"⟩

/-- **C4 (evaluation at the failing input).** B's all-in raise exceeds the
table bet by `5 - 4 = 1 < MinRaise = 2`, yet `runBettingRound` accepts it
as a full raise: `Table.CurrentBet` becomes 5, `lastRaiser`/
`playersActed` are reset, and A — who had already acted — is required to
act again (A's `TakeTurn` is invoked twice, B's and C's once each),
contradicting the claim that a short all-in does not reset the action
requirement of players who have already acted. -/
theorem shortAllin_reopens_betting :
    (runBettingRound 32 1 0 c4State).map
        (fun r => (r.1.players.map fun p => (p.turns, p.chips, p.currentBet),
                   r.1.pot, r.1.currentBet, r.2)) =
      some ([(2, 95, 5), (1, 0, 5), (1, 100, 0)], 10, 5, true) ∧
    minRaiseAmt = 2 := by
  exact ⟨by decide, rfl⟩

/-- Three-player flop-street round for the claimed trace: A checks, B
raises by 4, C calls 4, A calls 4. -/
def c5aState : BettingState :=
  ⟨[⟨100, false, 0, [.check, .call 4], 0⟩,
    ⟨100, false, 0, [.raise 4], 0⟩,
    ⟨100, false, 0, [.call 4], 0⟩], 0, 0, "Flop"⟩

/-- Three-player flop-street round with B already all-in (0 chips, not
folded) and no raise: A and C check; the scripts give A a second check
because the code asks for one. -/
def c5bState : BettingState :=
  ⟨[⟨100, false, 0, [.check, .check], 0⟩,
    ⟨0, false, 0, [], 0⟩,
    ⟨100, false, 0, [.check], 0⟩], 0, 0, "Flop"⟩

/-- **C5 (evaluation).** (i) The claimed trace holds: after A's check,
B's raise, C's call and A's call the round terminates — A acted twice,
B and C once each, so neither B nor C is asked again.  (ii) The general
termination rule fails on the code: with B all-in at round start and no
raise, after A and C have each acted once and matched `Table.CurrentBet`
(= 0) the round does **not** end — A's `TakeTurn` is invoked a second
time, because `numToAct` counts the all-in player B while the skip branch
never increments `playersActed`. -/
theorem roundTermination_eval :
    (runBettingRound 32 1 0 c5aState).map
        (fun r => (r.1.players.map (·.turns), r.1.currentBet, r.2)) =
      some ([2, 1, 1], 4, true) ∧
    (runBettingRound 32 1 0 c5bState).map
        (fun r => (r.1.players.map (·.turns), r.1.currentBet, r.2)) =
      some ([2, 0, 1], 0, true) := by
  exact ⟨by decide, by decide⟩

/-! ### C6: short-stacked call is coerced to an all-in call -/

/-- The call amount `HumanPlayer.TakeTurn` submits: the full amount
needed to call when affordable, otherwise all remaining chips ("Not
enough chips to call … Going all-in"). -/
def humanCallAmount (chips currentBet myBet : Int) : Int :=
  if chips ≥ currentBet - myBet then currentBet - myBet else chips

/-- **C6.** A player whose stack cannot cover the call amount: the
player-side `TakeTurn` submits a call for exactly the remaining chips,
and the `"call"` branch of `runBettingRound` accepts it (for any
submitted amount at least the stack — the branch caps at the stack and
the mismatch correction does not fire), moving exactly the remaining
chips into the pot, leaving the player with zero chips and not folded. -/
theorem call_shortstack_allin (L : LoopSt) (p1 : PlayerSt) (a : Int)
    (hidx : L.idx < L.st.players.length)
    (hshort : p1.chips < L.st.currentBet - p1.currentBet)
    (ha : p1.chips ≤ a) :
    humanCallAmount p1.chips L.st.currentBet p1.currentBet = p1.chips ∧
    (getP (applyCall L p1 a).st.players L.idx).chips = 0 ∧
    (getP (applyCall L p1 a).st.players L.idx).currentBet =
      p1.currentBet + p1.chips ∧
    (getP (applyCall L p1 a).st.players L.idx).folded = p1.folded ∧
    (applyCall L p1 a).st.pot = L.st.pot + p1.chips := by
  have hbet : callBet L.st.currentBet p1 a = p1.chips := by
    unfold callBet capAt
    dsimp only
    split_ifs <;> omega
  have hhuman : humanCallAmount p1.chips L.st.currentBet p1.currentBet =
      p1.chips := by
    unfold humanCallAmount
    rw [if_neg (by omega)]
  refine ⟨hhuman, ?_, ?_, ?_, ?_⟩ <;>
    unfold applyCall <;>
    dsimp only <;>
    rw [hbet] <;>
    simp only [bump, getP_set_self _ _ _ hidx] <;>
    simp [removeChips]

/-- Seat for the C6 witness: 3 chips facing a table bet of 10. -/
def c6L : LoopSt := ⟨⟨[⟨3, false, 0, [], 0⟩], 0, 10, "Flop"⟩, -1, 0, 1, 0, 0⟩

/-- The acting short-stacked player for the C6 witness. -/
def c6P : PlayerSt := ⟨3, false, 0, [], 0⟩

/-- Concrete instantiation of `call_shortstack_allin`: 3 chips against a
call amount of 10 yield an accepted all-in call of exactly 3. -/
theorem call_shortstack_allin_witness :
    humanCallAmount c6P.chips c6L.st.currentBet c6P.currentBet = c6P.chips ∧
    (getP (applyCall c6L c6P 3).st.players c6L.idx).chips = 0 ∧
    (getP (applyCall c6L c6P 3).st.players c6L.idx).currentBet =
      c6P.currentBet + c6P.chips ∧
    (getP (applyCall c6L c6P 3).st.players c6L.idx).folded = c6P.folded ∧
    (applyCall c6L c6P 3).st.pot = c6L.st.pot + c6P.chips :=
  call_shortstack_allin c6L c6P 3 (by decide) (by decide) (by decide)

/-! ### Hand evaluation (C2, C7)

`hand.go` ends at `TODO: Implement hand evaluation logic`; the repository
contains no `EvaluatedHand`, and `showdown` in `game.go` is an explicit
placeholder.  The evaluator below is therefore modelled from the spec
(§4.1) so that its claims can be settled against it. -/

/-- `HandCategory` from the spec, lowest to highest. -/
inductive HandCategory where
  | highCard
  | onePair
  | twoPair
  | threeOfAKind
  | straight
  | flush
  | fullHouse
  | fourOfAKind
  | straightFlush
deriving DecidableEq, Repr

/-- Position of a category in the spec's ordering. -/
def HandCategory.strength : HandCategory → Nat
  | .highCard => 0
  | .onePair => 1
  | .twoPair => 2
  | .threeOfAKind => 3
  | .straight => 4
  | .flush => 5
  | .fullHouse => 6
  | .fourOfAKind => 7
  | .straightFlush => 8

/-- `EvaluatedHand` from the spec: category plus the ordered tiebreaker
ranks (descending significance). -/
structure EvaluatedHand where
  category : HandCategory
  tiebreakers : List Nat
deriving DecidableEq, Repr

/-- Lexicographic strict comparison of tiebreaker sequences. -/
def tbLt : List Nat → List Nat → Bool
  | [], [] => false
  | [], _ :: _ => true
  | _ :: _, [] => false
  | a :: as, b :: bs => if a < b then true else if b < a then false else tbLt as bs

/-- Strict "worse than": category first, then tiebreakers
lexicographically. -/
def ehLt (h1 h2 : EvaluatedHand) : Bool :=
  if h1.category.strength < h2.category.strength then true
  else if h2.category.strength < h1.category.strength then false
  else tbLt h1.tiebreakers h2.tiebreakers

/-- `h1` is strictly stronger than `h2`. -/
def ehBetter (h1 h2 : EvaluatedHand) : Bool := ehLt h2 h1

/-- Insert into a descending-sorted list. -/
def insertDesc (x : Nat) : List Nat → List Nat
  | [] => [x]
  | y :: ys => if x ≥ y then x :: y :: ys else y :: insertDesc x ys

/-- Sort ranks descending. -/
def sortDesc (l : List Nat) : List Nat := l.foldr insertDesc []

/-- Collapse adjacent duplicates of a sorted list (distinct ranks,
order preserved). -/
def dedupSorted : List Nat → List Nat
  | [] => []
  | [x] => [x]
  | x :: y :: r => if x = y then dedupSorted (y :: r) else x :: dedupSorted (y :: r)

/-- Multiplicity of a rank among the hand's ranks. -/
def rankCount (r : Nat) (ranks : List Nat) : Nat :=
  (ranks.filter (· = r)).length

/-- Modelled from the spec: sorted-distinct-rank run detection, with the
special case that `{14, 5, 4, 3, 2}` (Ace-low wheel) is a straight with
high card 5, not 14.  `ds` is the distinct ranks sorted descending. -/
def straightHighOf (ds : List Nat) : Option Nat :=
  if ds = [14, 5, 4, 3, 2] then some 5
  else
    match ds with
    | [a, _, _, _, e] => if a = e + 4 then some a else none
    | _ => none

/-- Modelled from the spec (§4.1): categorise one five-card subset by
rank-frequency histogram, suit histogram (flush) and straight detection,
producing the category together with its tiebreaker sequence (primary
rank groups before kickers, each written highest first). -/
def evaluate5 (cs : List Card) : EvaluatedHand :=
  let ranks := cs.map (·.rank)
  let rs := sortDesc ranks
  let ds := dedupSorted rs
  let isFlush :=
    match cs with
    | [] => false
    | c :: rest => rest.all (fun d => d.suit = c.suit)
  let sh := straightHighOf ds
  let quad := ds.filter (fun r => rankCount r ranks = 4)
  let trips := ds.filter (fun r => rankCount r ranks = 3)
  let pairs := ds.filter (fun r => rankCount r ranks = 2)
  let singles := ds.filter (fun r => rankCount r ranks = 1)
  if isFlush && sh.isSome then ⟨.straightFlush, [sh.getD 0]⟩
  else if quad.length = 1 then ⟨.fourOfAKind, quad ++ singles⟩
  else if trips.length = 1 && pairs.length = 1 then ⟨.fullHouse, trips ++ pairs⟩
  else if isFlush then ⟨.flush, rs⟩
  else if sh.isSome then ⟨.straight, [sh.getD 0]⟩
  else if trips.length = 1 then ⟨.threeOfAKind, trips ++ singles⟩
  else if pairs.length = 2 then ⟨.twoPair, pairs ++ singles⟩
  else if pairs.length = 1 then ⟨.onePair, pairs ++ singles⟩
  else ⟨.highCard, rs⟩

/-- Error taxonomy of the spec's evaluator contract. -/
inductive EvalErr where
  | insufficientCards
  | duplicateCard
deriving DecidableEq, Repr

/-- All five-card subsets of the input. -/
def choose5 (cs : List Card) : List (List Card) :=
  cs.sublists.filter (fun s => s.length = 5)

/-- Modelled from the spec: the Hand Evaluator contract
`evaluate(sevenOrFewerCards) -> EvaluatedHand` (absent from the source —
`hand.go` stops at its TODO): fewer than 5 cards is an
`InsufficientCards` error, a duplicate card a `DuplicateCard` error;
otherwise enumerate every C(n,5) five-card subset, categorise each, and
return the maximum under the (category, tiebreakers) order. -/
def evaluate (cs : List Card) : Except EvalErr EvaluatedHand :=
  if cs.length < 5 then .error .insufficientCards
  else if cs.Nodup then
    match (choose5 cs).map evaluate5 with
    | [] => .error .insufficientCards
    | e :: rest =>
      .ok (rest.foldl (fun best x => if ehBetter x best then x else best) e)
  else .error .duplicateCard

/-- Total wrapper of `evaluate` for stating comparisons. -/
def evaluateD (cs : List Card) : EvaluatedHand :=
  match evaluate cs with
  | .ok e => e
  | .error _ => ⟨.highCard, []⟩

/-- The seven cards of the Ace-low-straight property:
A♠ 2♥ 3♦ 4♣ 5♠ 9♦ K♣. -/
def wheelSeven : List Card :=
  [⟨0, 14⟩, ⟨1, 2⟩, ⟨2, 3⟩, ⟨3, 4⟩, ⟨0, 5⟩, ⟨2, 9⟩, ⟨3, 13⟩]

set_option maxRecDepth 4000 in
/-- **C7.** Evaluating {A♠, 2♥, 3♦, 4♣, 5♠, 9♦, K♣} yields category
`Straight` with high card 5 as its (only) tiebreaker — the Ace counts
low in the wheel, not as 14. -/
theorem wheel_straight_high_five :
    evaluate wheelSeven = .ok ⟨.straight, [5]⟩ := by rfl

/-! ### Pot settlement (C3)

The Pot Settlement Engine is absent from the source: `awardPot` hands the
whole pot to one winner under `TODO: Handle side pots for all-in
situations`.  `settle` below is modelled from the spec (§4.3). -/

/-- A pot layer: its amount and the players eligible to win it. -/
structure SettlePot where
  amount : Int
  eligible : List Nat
deriving DecidableEq, Repr

/-- Insert into an ascending-sorted list, dropping duplicates. -/
def insertAscDedup (x : Int) : List Int → List Int
  | [] => [x]
  | y :: ys =>
    if x < y then x :: y :: ys
    else if x = y then y :: ys
    else y :: insertAscDedup x ys

/-- The distinct contribution levels, sorted ascending. -/
def sortedLevels (l : List Int) : List Int := l.foldr insertAscDedup []

/-- One pot layer per contribution level: the slice of every player's
contribution between the previous level and this one funds the layer;
the non-folded players whose contribution reaches the level are
eligible. -/
def settleLayers (contribs nonFolded : List (Nat × Int)) :
    Int → List Int → List SettlePot
  | _, [] => []
  | prev, lvl :: rest =>
    ⟨(contribs.map (fun pc => min pc.2 lvl - min pc.2 prev)).sum,
     (nonFolded.filter (fun pc => pc.2 ≥ lvl)).map (·.1)⟩ ::
      settleLayers contribs nonFolded lvl rest

/-- Modelled from the spec: the Pot Settlement Engine contract
`settle(contributions, foldedSet, …)` (absent from the source).  Sort the
distinct non-zero contribution levels of the non-folded players
ascending; for each successive pair `(prevLevel, level)` every player
funds `min(contribution, level) - min(contribution, prevLevel)` into that
layer (so chips from folded or over-the-top contributors flow into the
layers they funded), and the layer's eligible-winner set is exactly the
non-folded players whose contribution is at least `level`. -/
def settle (contribs : List (Nat × Int)) (folded : List Nat) :
    List SettlePot :=
  let nonFolded := contribs.filter (fun pc => !(folded.contains pc.1))
  settleLayers contribs nonFolded 0
    (sortedLevels ((nonFolded.map (·.2)).filter (fun a => a ≠ 0)))

/-- **C3.** Contributions of 50, 100 and 200 by players 0, 1 and 2, none
folded: settlement produces exactly three pots — 150 chips open to all
three players, 100 chips open to the 100- and 200-contributors, and 100
chips open only to the 200-contributor. -/
theorem sidepot_layering :
    settle [(0, 50), (1, 100), (2, 200)] [] =
      [⟨150, [0, 1, 2]⟩, ⟨100, [1, 2]⟩, ⟨100, [2]⟩] := by decide

/-! ### C2: the showdown placeholder ignores hand strength -/

/-- Showdown state for the C2 evaluation: two players in hand, pot 100. -/
def c2State : BettingState :=
  ⟨[⟨0, false, 0, [], 0⟩, ⟨0, false, 0, [], 0⟩], 100, 0, "River"⟩

/-- Community cards 7♥ 9♦ Q♣ 3♠ 4♦. -/
def c2Board : List Card := [⟨1, 7⟩, ⟨2, 9⟩, ⟨3, 12⟩, ⟨0, 3⟩, ⟨2, 4⟩]

/-- Player 0's hole cards 5♠ 10♥ — queen-high, no pair. -/
def c2Hole0 : List Card := [⟨0, 5⟩, ⟨1, 10⟩]

/-- Player 1's hole cards A♠ A♥ — a pair of aces. -/
def c2Hole1 : List Card := [⟨0, 14⟩, ⟨1, 14⟩]

set_option maxRecDepth 8000 in
/-- **C2 (evaluation at the failing input).** Player 1's best hand (pair
of aces) is strictly stronger than player 0's (queen-high), yet the
source's `showdown` — "Winner (Placeholder)" — awards the whole 100-chip
pot to player 0, the first remaining player, leaving player 1 nothing:
the code does not distribute pots to the holders of the maximum
`EvaluatedHand`. -/
theorem showdown_placeholder_misawards :
    ehBetter (evaluateD (c2Hole1 ++ c2Board))
      (evaluateD (c2Hole0 ++ c2Board)) = true ∧
    (getP (showdownGo c2State).players 0).chips = 100 ∧
    (getP (showdownGo c2State).players 1).chips = 0 ∧
    (showdownGo c2State).pot = 0 := by
  exact ⟨by rfl, by decide, by decide, by decide⟩

end Poker
